import Mathlib

/-!
Verification of the multi-source stock-listing pipeline of this repository.

The Python source is embedded shallowly: each relevant function becomes an
executable Lean definition over explicit inputs (network payloads become
parameters), and the claimed properties are settled as theorems about those
definitions.
-/

namespace StockSite

/-- Raw record as handled by the comprehensive listing scripts
(`scripts/get_comprehensive_stock_listing.py`, `scripts/get_us_stock_listing.py`):
a Python dict with keys `Symbol`, `Name`, `Market`. -/
structure RawStock where
  symbol : String
  name : String
  market : String
deriving DecidableEq, Repr

/-- Canonical record produced by `scripts/generate_symbols_json.py`:
a Python dict with keys `code`, `name`, `market`, `country` and optional `type`. -/
structure SymbolRecord where
  code : String
  name : String
  market : String
  country : String
  type : Option String := none
deriving DecidableEq, Repr

/-! Executable models of the Python string primitives the scripts use.
The byte-position-based `String` functions of core Lean are defined by
well-founded recursion and do not reduce inside the kernel, so the
character-list versions below are used instead. -/

/-- Python `str.strip()`: remove leading and trailing whitespace. -/
def pyStrip (s : String) : String :=
  String.mk (((s.data.dropWhile Char.isWhitespace).reverse.dropWhile Char.isWhitespace).reverse)

/-- Python `str.isdigit()` (restricted to the ASCII digits the scripts feed
it): true on non-empty all-digit strings. -/
def pyIsDigit (s : String) : Bool :=
  !s.data.isEmpty && s.data.all Char.isDigit

/-- Python `str.upper()` on the ASCII tickers the scripts feed it. -/
def pyUpper (s : String) : String :=
  String.mk (s.data.map Char.toUpper)

/-! Association-list helpers modelling an insertion-ordered Python dict
(`unique_stocks = {}` in the dedup loops).  Python dicts preserve insertion
order of keys, and assigning to an existing key keeps its position, which is
exactly what `updateA` does. -/

/-- Look up the value bound to key `k`, as `unique_stocks[symbol]` / the
`symbol not in unique_stocks` test do. -/
def lookupA {α : Type} (k : String) : List (String × α) → Option α
  | [] => none
  | (k', v) :: rest => if k' = k then some v else lookupA k rest

/-- Rebind key `k` to `v` in place, as `unique_stocks[symbol] = stock` does for
an existing key. -/
def updateA {α : Type} (k : String) (v : α) : List (String × α) → List (String × α)
  | [] => []
  | (k', v') :: rest => if k' = k then (k', v) :: rest else (k', v') :: updateA k v rest

/-! Merge/dedup loop of `get_comprehensive_stock_listing`
(`scripts/get_comprehensive_stock_listing.py` lines 506-532). -/

/-- Validity-and-key check of the dedup loop: a record whose `Symbol` or `Name`
is empty or whitespace-only is skipped (`if not symbol or not name or
str(symbol).strip() == '' or str(name).strip() == '': continue`); otherwise its
dedup key is the stripped symbol (`symbol = str(symbol).strip()`). -/
def stockKey? (s : RawStock) : Option String :=
  if pyStrip s.symbol = "" ∨ pyStrip s.name = "" then none else some (pyStrip s.symbol)

/-- One iteration of the dedup loop (lines 509-527): insert a fresh key, and
replace the stored record when the incoming stripped name is strictly longer
than the stored record's `Name` (`if len(name) > len(existing_name)`).  The
stored value is the whole original dict (`unique_stocks[symbol] = stock`). -/
def dedupStep (acc : List (String × RawStock)) (s : RawStock) : List (String × RawStock) :=
  match stockKey? s with
  | none => acc
  | some k =>
    match lookupA k acc with
    | none => acc ++ [(k, s)]
    | some v => if (pyStrip s.name).length > v.name.length then updateA k s acc else acc

/-- Whole dedup pass (lines 506-532): fold the input into the dict and return
`list(unique_stocks.values())`. -/
def dedupStocks (stocks : List RawStock) : List RawStock :=
  (stocks.foldl dedupStep []).map (·.2)

/-! Source accumulation of `get_korea_stocks`
(`scripts/generate_symbols_json.py` lines 315-366): the highest-priority Naver
source appends every record whose `code` is not in `existing_codes`
(lines 319-323); the lower-priority GitHub CSV source additionally requires a
6-digit numeric symbol and non-empty name (lines 350-364) before the same
`symbol not in existing_codes` test. -/

/-- Accumulator state of `get_korea_stocks`: the `all_stocks` list and the
`existing_codes` set (modelled as the list of codes added so far). -/
def addIfNewCode (st : List SymbolRecord × List String) (r : SymbolRecord) :
    List SymbolRecord × List String :=
  if r.code ∈ st.2 then st else (st.1 ++ [r], st.2 ++ [r.code])

/-- Validity filter of the GitHub CSV source in `get_korea_stocks`
(line 355: `if symbol and name and len(symbol) == 6 and symbol.isdigit()`). -/
def githubRowValid (symbol name : String) : Bool :=
  symbol ≠ "" && name ≠ "" && symbol.length = 6 && symbol.data.all Char.isDigit

/-- Merge of the first two sources of `get_korea_stocks`: Naver records
(lines 319-323), then GitHub CSV rows `(symbol, name, market)`
(lines 350-364).  The stripped CSV fields are passed in directly. -/
def koreaNaverThenGithub (naver : List SymbolRecord)
    (github : List (String × String × String)) : List SymbolRecord :=
  let st := naver.foldl addIfNewCode ([], [])
  let st := github.foldl (fun st row =>
    if githubRowValid row.1 row.2.1 then
      addIfNewCode st ⟨row.1, row.2.1, row.2.2, "KR", none⟩
    else st) st
  st.1

/-! Generic facts about `lookupA` and `updateA`. -/

theorem lookupA_append {α : Type} (k : String) (l1 l2 : List (String × α)) :
    lookupA k (l1 ++ l2) =
      match lookupA k l1 with
      | some v => some v
      | none => lookupA k l2 := by
  induction l1 with
  | nil => simp [lookupA]
  | cons p rest ih =>
    by_cases h : p.1 = k
    · simp [lookupA, h]
    · simp [lookupA, h, ih]

theorem lookupA_updateA_self {α : Type} (k : String) (v : α) (l : List (String × α)) :
    lookupA k (updateA k v l) = if (lookupA k l).isSome then some v else none := by
  induction l with
  | nil => simp [lookupA, updateA]
  | cons p rest ih =>
    by_cases h : p.1 = k
    · simp [lookupA, updateA, h]
    · simp [lookupA, updateA, h, ih]

theorem lookupA_updateA_ne {α : Type} (k k' : String) (hne : k' ≠ k) (v : α)
    (l : List (String × α)) : lookupA k' (updateA k v l) = lookupA k' l := by
  induction l with
  | nil => simp [updateA]
  | cons p rest ih =>
    by_cases h : p.1 = k
    · simp [lookupA, updateA, h, Ne.symm hne]
    · simp [lookupA, updateA, h, ih]

theorem updateA_keys {α : Type} (k : String) (v : α) (l : List (String × α)) :
    (updateA k v l).map Prod.fst = l.map Prod.fst := by
  induction l with
  | nil => simp [updateA]
  | cons p rest ih =>
    by_cases h : p.1 = k
    · simp [updateA, h]
    · simp [updateA, h, ih]

theorem lookupA_eq_none_iff {α : Type} (k : String) (l : List (String × α)) :
    lookupA k l = none ↔ k ∉ l.map Prod.fst := by
  induction l with
  | nil => simp [lookupA]
  | cons p rest ih =>
    by_cases h : p.1 = k
    · simp [lookupA, h]
    · simp [lookupA, h, ih, Ne.symm h]

theorem mem_updateA {α : Type} (k : String) (v : α) (l : List (String × α))
    (p : String × α) (hp : p ∈ updateA k v l) : p ∈ l ∨ p = (k, v) := by
  induction l with
  | nil => simp [updateA] at hp
  | cons q rest ih =>
    by_cases h : q.1 = k
    · simp [updateA, h] at hp
      rcases hp with hp | hp
      · right; rw [hp, ← h]
      · left; exact List.mem_cons_of_mem _ hp
    · simp [updateA, h] at hp
      rcases hp with hp | hp
      · left; simp [hp]
      · rcases ih hp with h' | h'
        · left; exact List.mem_cons_of_mem _ h'
        · right; exact h'

/-! Behaviour of one dedup iteration on the binding at a fixed key `k`. -/

theorem dedupStep_lookup_other (acc : List (String × RawStock)) (s : RawStock)
    (k : String) (hs : stockKey? s ≠ some k) :
    lookupA k (dedupStep acc s) = lookupA k acc := by
  cases hks : stockKey? s with
  | none => simp [dedupStep, hks]
  | some k' =>
    have hne : k' ≠ k := fun h => hs (hks.trans (congrArg some h))
    cases hl : lookupA k' acc with
    | none =>
      simp only [dedupStep, hks, hl, lookupA_append]
      cases hlk : lookupA k acc with
      | none => simp [lookupA, hne]
      | some v => simp
    | some v =>
      by_cases hlen : (pyStrip s.name).length > v.name.length
      · simp [dedupStep, hks, hl, hlen, lookupA_updateA_ne k' k (Ne.symm hne)]
      · simp [dedupStep, hks, hl, hlen]

theorem dedupStep_lookup_fresh (acc : List (String × RawStock)) (s : RawStock)
    (k : String) (hs : stockKey? s = some k) (hl : lookupA k acc = none) :
    lookupA k (dedupStep acc s) = some s := by
  simp only [dedupStep, hs, hl, lookupA_append]
  simp [lookupA, hl]

theorem dedupStep_lookup_seen (acc : List (String × RawStock)) (s v : RawStock)
    (k : String) (hs : stockKey? s = some k) (hl : lookupA k acc = some v) :
    lookupA k (dedupStep acc s) =
      some (if (pyStrip s.name).length > v.name.length then s else v) := by
  by_cases hlen : (pyStrip s.name).length > v.name.length
  · simp [dedupStep, hs, hl, hlen, lookupA_updateA_self]
  · simp [dedupStep, hs, hl, hlen]

theorem dedupFold_lookup_other (l : List RawStock) (acc : List (String × RawStock))
    (k : String) (hk : ∀ r ∈ l, stockKey? r ≠ some k) :
    lookupA k (l.foldl dedupStep acc) = lookupA k acc := by
  induction l generalizing acc with
  | nil => rfl
  | cons s rest ih =>
    rw [List.foldl_cons, ih _ (fun r hr => hk r (List.mem_cons_of_mem _ hr)),
      dedupStep_lookup_other _ _ _ (hk s (List.mem_cons_self _ _))]

/-! Structural invariants of the dedup dict: every stored binding is keyed by
its record's own dedup key, and keys are pairwise distinct. -/

/-- Invariant: each binding `(k, v)` of the dict satisfies `stockKey? v = some k`. -/
def WellKeyed (acc : List (String × RawStock)) : Prop :=
  ∀ p ∈ acc, stockKey? p.2 = some p.1

theorem wellKeyed_dedupStep (acc : List (String × RawStock)) (s : RawStock)
    (h : WellKeyed acc) : WellKeyed (dedupStep acc s) := by
  cases hks : stockKey? s with
  | none => simpa [dedupStep, hks] using h
  | some k =>
    cases hl : lookupA k acc with
    | none =>
      simp only [dedupStep, hks, hl]
      intro p hp
      rcases List.mem_append.mp hp with hp | hp
      · exact h p hp
      · simp at hp
        rw [hp, hks]
    | some v =>
      by_cases hlen : (pyStrip s.name).length > v.name.length
      · simp only [dedupStep, hks, hl, if_pos hlen]
        intro p hp
        rcases mem_updateA _ _ _ _ hp with hp | hp
        · exact h p hp
        · rw [hp, hks]
      · simpa [dedupStep, hks, hl, hlen] using h

theorem nodupKeys_dedupStep (acc : List (String × RawStock)) (s : RawStock)
    (h : (acc.map Prod.fst).Nodup) : ((dedupStep acc s).map Prod.fst).Nodup := by
  cases hks : stockKey? s with
  | none => simpa [dedupStep, hks] using h
  | some k =>
    cases hl : lookupA k acc with
    | none =>
      have hk : k ∉ acc.map Prod.fst := (lookupA_eq_none_iff k acc).mp hl
      simp only [dedupStep, hks, hl]
      simpa [List.nodup_append] using And.intro h hk
    | some v =>
      by_cases hlen : (pyStrip s.name).length > v.name.length
      · simpa [dedupStep, hks, hl, hlen, updateA_keys] using h
      · simpa [dedupStep, hks, hl, hlen] using h

theorem wellKeyed_dedupFold (l : List RawStock) (acc : List (String × RawStock))
    (h : WellKeyed acc) : WellKeyed (l.foldl dedupStep acc) := by
  induction l generalizing acc with
  | nil => exact h
  | cons s rest ih => exact ih _ (wellKeyed_dedupStep _ _ h)

theorem nodupKeys_dedupFold (l : List RawStock) (acc : List (String × RawStock))
    (h : (acc.map Prod.fst).Nodup) : ((l.foldl dedupStep acc).map Prod.fst).Nodup := by
  induction l generalizing acc with
  | nil => exact h
  | cons s rest ih => exact ih _ (nodupKeys_dedupStep _ _ h)

/-- In a well-keyed dict with distinct keys, the records whose dedup key is `k`
among the stored values are exactly the one found by lookup. -/
theorem filter_values_eq_lookup (acc : List (String × RawStock)) (k : String)
    (hw : WellKeyed acc) (hn : (acc.map Prod.fst).Nodup) (v : RawStock)
    (hl : lookupA k acc = some v) :
    (acc.map (·.2)).filter (fun r => stockKey? r = some k) = [v] := by
  induction acc with
  | nil => simp [lookupA] at hl
  | cons p rest ih =>
    have hwrest : WellKeyed rest := fun q hq => hw q (List.mem_cons_of_mem _ hq)
    have hnrest : (rest.map Prod.fst).Nodup := (List.nodup_cons.mp hn).2
    by_cases h : p.1 = k
    · have hv : p.2 = v := by
        simp [lookupA, h] at hl
        exact hl
      have hkey : stockKey? p.2 = some k := h ▸ hw p (List.mem_cons_self _ _)
      have hrest : ∀ r ∈ rest.map (·.2), ¬(stockKey? r = some k) := by
        intro r hr hkr
        rcases List.mem_map.mp hr with ⟨q, hq, hq2⟩
        have := hw q (List.mem_cons_of_mem _ hq)
        rw [hq2, hkr] at this
        have : q.1 = k := by injection this.symm
        exact (List.nodup_cons.mp hn).1 (h ▸ this ▸ List.mem_map_of_mem Prod.fst hq)
      have hfr : (rest.map (·.2)).filter (fun r => stockKey? r = some k) = [] := by
        apply List.filter_eq_nil_iff.mpr
        intro r hr
        simpa using hrest r hr
      have hkeyv : stockKey? v = some k := hv ▸ hkey
      simp [hv, List.filter_cons, hkeyv, hfr]
    · have hpk : ¬(stockKey? p.2 = some k) := by
        intro hc
        have := hw p (List.mem_cons_self _ _)
        rw [hc] at this
        exact h (by injection this.symm)
      have hl' : lookupA k rest = some v := by
        simpa [lookupA, h] using hl
      simp only [List.map_cons, List.filter_cons]
      rw [if_neg (by simpa using hpk)]
      exact ih hwrest hnrest hl'

/-- C1 (amended): the final dedup loop of `get_comprehensive_stock_listing`
(lines 506-532), run on any input list in which exactly the two valid,
whitespace-trimmed records `r1` (earlier, higher priority) and `r2` (later,
lower priority) share the uniqueness key `k`, keeps exactly one record for
`k`: the one with the strictly longer `name` (on equal lengths the first
seen), the whole record — hence market and all other fields — coming from
that kept record.  (The claim's further assertion that the `get_korea_stocks`
merge of `generate_symbols_json.py` behaves this way is false: there a later
source's record with an already-seen code is dropped regardless of name
length, see the counterexample.) -/
theorem C1_dedup_longer_name_wins
    (l1 l2 l3 : List RawStock) (r1 r2 : RawStock) (k : String)
    (hk1 : stockKey? r1 = some k) (hk2 : stockKey? r2 = some k)
    (_ht1 : pyStrip r1.name = r1.name) (ht2 : pyStrip r2.name = r2.name)
    (hno : ∀ r ∈ l1 ++ l2 ++ l3, stockKey? r ≠ some k) :
    (dedupStocks (l1 ++ r1 :: (l2 ++ r2 :: l3))).filter (fun r => stockKey? r = some k)
      = [if r2.name.length > r1.name.length then r2 else r1] := by
  have hno1 : ∀ r ∈ l1, stockKey? r ≠ some k := fun r hr => hno r (by simp [hr])
  have hno2 : ∀ r ∈ l2, stockKey? r ≠ some k := fun r hr => hno r (by simp [hr])
  have hno3 : ∀ r ∈ l3, stockKey? r ≠ some k := fun r hr => hno r (by simp [hr])
  have hfold : (l1 ++ r1 :: (l2 ++ r2 :: l3)).foldl dedupStep [] =
      l3.foldl dedupStep
        (dedupStep (l2.foldl dedupStep (dedupStep (l1.foldl dedupStep []) r1)) r2) := by
    simp [List.foldl_append]
  have h0 : lookupA k (l1.foldl dedupStep []) = none := by
    rw [dedupFold_lookup_other _ _ _ hno1]; rfl
  have h1 : lookupA k (dedupStep (l1.foldl dedupStep []) r1) = some r1 :=
    dedupStep_lookup_fresh _ _ _ hk1 h0
  have h2 : lookupA k (l2.foldl dedupStep (dedupStep (l1.foldl dedupStep []) r1)) = some r1 := by
    rw [dedupFold_lookup_other _ _ _ hno2]; exact h1
  have h3 : lookupA k
      (dedupStep (l2.foldl dedupStep (dedupStep (l1.foldl dedupStep []) r1)) r2)
      = some (if r2.name.length > r1.name.length then r2 else r1) := by
    rw [dedupStep_lookup_seen _ _ _ _ hk2 h2, ht2]
  have h4 : lookupA k ((l1 ++ r1 :: (l2 ++ r2 :: l3)).foldl dedupStep [])
      = some (if r2.name.length > r1.name.length then r2 else r1) := by
    rw [hfold, dedupFold_lookup_other _ _ _ hno3]; exact h3
  have hw : WellKeyed ((l1 ++ r1 :: (l2 ++ r2 :: l3)).foldl dedupStep []) :=
    wellKeyed_dedupFold _ _ (by intro p hp; simp at hp)
  have hn : (((l1 ++ r1 :: (l2 ++ r2 :: l3)).foldl dedupStep []).map Prod.fst).Nodup :=
    nodupKeys_dedupFold _ _ (by simp)
  simpa [dedupStocks] using filter_values_eq_lookup _ k hw hn _ h4

/-- C1 witness: the dedup loop on the claim's concrete scenario — the record
for code 005930 named 삼성전자 followed by the one named 삼성전자우 — keeps
exactly one record for 005930, the longer-named 삼성전자우 one. -/
theorem C1_dedup_longer_name_wins_witness :
    (dedupStocks [⟨"005930", "삼성전자", "KOSPI"⟩, ⟨"005930", "삼성전자우", "KOSPI"⟩]).filter
        (fun r => stockKey? r = some "005930")
      = [⟨"005930", "삼성전자우", "KOSPI"⟩] := by
  have h := C1_dedup_longer_name_wins [] [] []
    ⟨"005930", "삼성전자", "KOSPI"⟩ ⟨"005930", "삼성전자우", "KOSPI"⟩ "005930"
    (by decide) (by decide) (by decide) (by decide)
    (by intro r hr; simp at hr)
  simpa using h

/-- C1 counterexample: in `get_korea_stocks` of `generate_symbols_json.py`,
merging a higher-priority source's `[(005930, 삼성전자)]` with a lower-priority
source's `[(005930, 삼성전자우)]` keeps the first-seen shorter name 삼성전자,
not the strictly longer 삼성전자우 demanded by the claim: the later record is
dropped by the `symbol not in existing_codes` test (lines 355-364). -/
theorem C1_counterexample :
    (koreaNaverThenGithub [⟨"005930", "삼성전자", "KOSPI", "KR", none⟩]
        [("005930", "삼성전자우", "KOSPI")]).map SymbolRecord.name = ["삼성전자"] ∧
    (⟨"005930", "삼성전자우", "KOSPI", "KR", none⟩ : SymbolRecord) ∉
      koreaNaverThenGithub [⟨"005930", "삼성전자", "KOSPI", "KR", none⟩]
        [("005930", "삼성전자우", "KOSPI")] := by
  constructor
  · decide
  · decide

/-! Emitted results of the pipelines (claim C2). -/

/-- Result dict returned by `get_comprehensive_stock_listing`
(`scripts/get_comprehensive_stock_listing.py` lines 535-541), fed the
accumulated `all_stocks` list: `success` is the literal `True` whatever
happened upstream (the `sources` audit list is not modelled). -/
structure ListingResult where
  success : Bool
  data : List RawStock
  count : Nat
  source : String
deriving DecidableEq, Repr

def comprehensiveResult (allStocks : List RawStock) : ListingResult :=
  { success := true
    data := dedupStocks allStocks
    count := (dedupStocks allStocks).length
    source := "comprehensive" }

/-- Success summary printed by `main` of `generate_symbols_json.py`
(lines 674-680), with the totals assembled at lines 648-660: `success` is the
literal `True`, and `total` is the sum of the two counts. -/
structure RunSummary where
  success : Bool
  korea_count : Nat
  us_count : Nat
  total_count : Nat
deriving DecidableEq, Repr

def mainSummary (korea us : List SymbolRecord) : RunSummary :=
  { success := true
    korea_count := korea.length
    us_count := us.length
    total_count := korea.length + us.length }

/-- C2 (amended): the orchestrating pipelines never report failure — the
`success` field of both `generate_symbols_json.main` and
`get_comprehensive_stock_listing` is the constant `True` — so when every
source contributes nothing and the overlay is empty they emit an
empty-but-successful result with a zero total, not `success:false`. -/
theorem C2_success_always_true (korea us : List SymbolRecord)
    (allStocks : List RawStock) :
    (mainSummary korea us).success = true ∧
    (comprehensiveResult allStocks).success = true ∧
    (korea = [] → us = [] → (mainSummary korea us).total_count = 0) := by
  refine ⟨rfl, rfl, ?_⟩
  intro hk hu
  simp [mainSummary, hk, hu]

/-- C2 witness: instantiating the amended claim at the total-failure input
(no Korean records, no US records, nothing accumulated). -/
theorem C2_success_always_true_witness :
    (mainSummary [] []).success = true ∧
    (comprehensiveResult []).success = true ∧
    (mainSummary [] []).total_count = 0 :=
  ⟨(C2_success_always_true [] [] []).1, (C2_success_always_true [] [] []).2.1,
    (C2_success_always_true [] [] []).2.2 rfl rfl⟩

/-- C2 counterexample: on total failure (every source empty, empty overlay)
`generate_symbols_json.main` emits `success:true` with `total:0` — an
empty-but-successful result — contradicting the claimed `success:false`. -/
theorem C2_counterexample :
    (mainSummary [] []).success ≠ false ∧ (mainSummary [] []).total_count = 0 := by
  decide

/-! Manual overlay (claim C3). -/

/-- Manual overlay of `get_comprehensive_stock_listing` (lines 484-502):
`existing_symbols` is computed once before the loop (line 491); an entry whose
`Symbol` is already present is skipped entirely; an absent one is appended,
preferring the live `get_stock_by_ticker` result (modelled by `tickerLookup`)
over the hardcoded entry. -/
def applyManualOverlay (tickerLookup : String → Option RawStock)
    (manualStocks : List RawStock) (allStocks : List RawStock) : List RawStock :=
  let existing := allStocks.map (·.symbol)
  manualStocks.foldl (fun acc m =>
    if m.symbol ∈ existing then acc
    else acc ++ [(tickerLookup m.symbol).getD m]) allStocks

/-- Manual overlay of `get_korea_stocks` in `generate_symbols_json.py`
(lines 480-488): an already-seen ticker is skipped, and an absent one is
appended only when the ticker lookup succeeds (there is no hardcoded
fallback record in this script). -/
def applyManualTickers (tickerLookup : String → Option SymbolRecord)
    (manualTickers : List String) (st : List SymbolRecord × List String) :
    List SymbolRecord × List String :=
  manualTickers.foldl (fun st t =>
    if t ∈ st.2 then st
    else
      match tickerLookup t with
      | some info => (st.1 ++ [info], st.2 ++ [t])
      | none => st) st

/-- C3 (amended): an overlay entry never replaces an existing record — when
its key is already present the entry is skipped and the set is unchanged.
When the key is absent, `get_comprehensive_stock_listing` inserts the
ticker-lookup record if the lookup succeeds and the hardcoded entry
otherwise, so the final set contains exactly one record for that key, the
inserted one; `get_korea_stocks` of `generate_symbols_json.py` inserts only
when the ticker lookup succeeds. -/
theorem C3_overlay_insert_only (lookup : String → Option RawStock)
    (lookupG : String → Option SymbolRecord) (m : RawStock)
    (stocks : List RawStock) (t : String) (st : List SymbolRecord × List String)
    (hlookup : ∀ t' r, lookup t' = some r → r.symbol = t') :
    (m.symbol ∈ stocks.map (·.symbol) → applyManualOverlay lookup [m] stocks = stocks) ∧
    (m.symbol ∉ stocks.map (·.symbol) →
      applyManualOverlay lookup [m] stocks = stocks ++ [(lookup m.symbol).getD m] ∧
      (applyManualOverlay lookup [m] stocks).filter (fun r => r.symbol = m.symbol)
        = [(lookup m.symbol).getD m]) ∧
    (t ∈ st.2 → applyManualTickers lookupG [t] st = st) ∧
    (t ∉ st.2 → lookupG t = none → applyManualTickers lookupG [t] st = st) ∧
    (t ∉ st.2 → ∀ info, lookupG t = some info →
      applyManualTickers lookupG [t] st = (st.1 ++ [info], st.2 ++ [t])) := by
  refine ⟨?_, ?_, ?_, ?_, ?_⟩
  · intro hmem
    show (if m.symbol ∈ stocks.map (·.symbol) then stocks
      else stocks ++ [(lookup m.symbol).getD m]) = stocks
    rw [if_pos hmem]
  · intro hmem
    have happ : applyManualOverlay lookup [m] stocks
        = stocks ++ [(lookup m.symbol).getD m] := by
      show (if m.symbol ∈ stocks.map (·.symbol) then stocks
        else stocks ++ [(lookup m.symbol).getD m]) = _
      rw [if_neg hmem]
    refine ⟨happ, ?_⟩
    have hsym : ((lookup m.symbol).getD m).symbol = m.symbol := by
      cases hl : lookup m.symbol with
      | none => rfl
      | some r => simpa using hlookup _ _ hl
    have hnone : stocks.filter (fun r => r.symbol = m.symbol) = [] := by
      apply List.filter_eq_nil_iff.mpr
      intro r hr
      simp only [decide_eq_true_eq]
      intro hrs
      exact hmem (hrs ▸ List.mem_map_of_mem _ hr)
    rw [happ, List.filter_append, hnone]
    simp [hsym]
  · intro hmem
    simp [applyManualTickers, hmem]
  · intro hmem hl
    simp [applyManualTickers, hmem, hl]
  · intro hmem info hl
    simp [applyManualTickers, hmem, hl]

/-- C3 witness: an overlay entry for the absent key 064400 (with the ticker
lookup failing, so the hardcoded record is used) is inserted, and the final
set contains exactly one record for 064400, equal to the overlay's value. -/
theorem C3_overlay_insert_only_witness :
    applyManualOverlay (fun _ => none) [⟨"064400", "LG씨엔에스", "KOSPI"⟩]
        [⟨"005930", "삼성전자", "KOSPI"⟩]
      = [⟨"005930", "삼성전자", "KOSPI"⟩, ⟨"064400", "LG씨엔에스", "KOSPI"⟩] ∧
    (applyManualOverlay (fun _ => none) [⟨"064400", "LG씨엔에스", "KOSPI"⟩]
        [⟨"005930", "삼성전자", "KOSPI"⟩]).filter (fun r => r.symbol = "064400")
      = [⟨"064400", "LG씨엔에스", "KOSPI"⟩] := by
  have h := ((C3_overlay_insert_only (fun _ => none) (fun _ => none)
      ⟨"064400", "LG씨엔에스", "KOSPI"⟩ [⟨"005930", "삼성전자", "KOSPI"⟩]
      "064400" ([], []) (fun t' r h => Option.noConfusion h)).2.1 (by decide))
  simpa using h

/-- C3 counterexample: an overlay entry whose key 064400 already exists does
not replace the existing record — the set is left unchanged and the overlay's
value is absent — contradicting the claimed replace semantics. -/
theorem C3_counterexample :
    applyManualOverlay (fun _ => none) [⟨"064400", "LG씨엔에스", "KOSPI"⟩]
        [⟨"064400", "OLD", "KRX"⟩]
      = [⟨"064400", "OLD", "KRX"⟩] ∧
    (⟨"064400", "LG씨엔에스", "KOSPI"⟩ : RawStock) ∉
      applyManualOverlay (fun _ => none) [⟨"064400", "LG씨엔에스", "KOSPI"⟩]
        [⟨"064400", "OLD", "KRX"⟩] := by
  decide

/-! US listing dedup (claim C4). -/

/-- Normalized uniqueness key of the US dedup loop
(`scripts/get_us_stock_listing.py` line 114:
`symbol = str(stock['Symbol']).strip().upper()`). -/
def usKey (s : RawStock) : String := pyUpper (pyStrip s.symbol)

/-- One iteration of the dedup loop of `get_comprehensive_us_stock_listing`
(lines 108-123): records with a falsy `Symbol` or `Name` are skipped
(line 111), the dict is keyed by the trimmed upper-cased symbol, and the
longer-stripped-name rule decides replacement.  The stored value is the whole
original dict. -/
def usDedupStep (acc : List (String × RawStock)) (s : RawStock) : List (String × RawStock) :=
  if s.symbol = "" ∨ s.name = "" then acc
  else
    match lookupA (usKey s) acc with
    | none => acc ++ [(usKey s, s)]
    | some v => if (pyStrip s.name).length > v.name.length then updateA (usKey s) s acc else acc

/-- Whole US dedup pass (lines 108-125). -/
def usDedup (stocks : List RawStock) : List RawStock :=
  (stocks.foldl usDedupStep []).map (·.2)

/-- Invariant: each binding of the US dedup dict is keyed by its record's
normalized symbol. -/
def UsWellKeyed (acc : List (String × RawStock)) : Prop :=
  ∀ p ∈ acc, usKey p.2 = p.1

theorem usWellKeyed_step (acc : List (String × RawStock)) (s : RawStock)
    (h : UsWellKeyed acc) : UsWellKeyed (usDedupStep acc s) := by
  by_cases hv : s.symbol = "" ∨ s.name = ""
  · simpa [usDedupStep, hv] using h
  · cases hl : lookupA (usKey s) acc with
    | none =>
      simp only [usDedupStep, hv, if_false, hl]
      intro p hp
      rcases List.mem_append.mp hp with hp | hp
      · exact h p hp
      · simp at hp
        rw [hp]
    | some v =>
      by_cases hlen : (pyStrip s.name).length > v.name.length
      · simp only [usDedupStep, hv, if_false, hl, if_pos hlen]
        intro p hp
        rcases mem_updateA _ _ _ _ hp with hp | hp
        · exact h p hp
        · rw [hp]
      · simpa [usDedupStep, hv, hl, hlen] using h

theorem usNodupKeys_step (acc : List (String × RawStock)) (s : RawStock)
    (h : (acc.map Prod.fst).Nodup) : ((usDedupStep acc s).map Prod.fst).Nodup := by
  by_cases hv : s.symbol = "" ∨ s.name = ""
  · simpa [usDedupStep, hv] using h
  · cases hl : lookupA (usKey s) acc with
    | none =>
      have hk : usKey s ∉ acc.map Prod.fst := (lookupA_eq_none_iff _ acc).mp hl
      simp only [usDedupStep, hv, if_false, hl]
      simpa [List.nodup_append] using And.intro h hk
    | some v =>
      by_cases hlen : (pyStrip s.name).length > v.name.length
      · simpa [usDedupStep, hv, hl, hlen, updateA_keys] using h
      · simpa [usDedupStep, hv, hl, hlen] using h

theorem usWellKeyed_fold (l : List RawStock) (acc : List (String × RawStock))
    (h : UsWellKeyed acc) : UsWellKeyed (l.foldl usDedupStep acc) := by
  induction l generalizing acc with
  | nil => exact h
  | cons s rest ih => exact ih _ (usWellKeyed_step _ _ h)

theorem usNodupKeys_fold (l : List RawStock) (acc : List (String × RawStock))
    (h : (acc.map Prod.fst).Nodup) : ((l.foldl usDedupStep acc).map Prod.fst).Nodup := by
  induction l generalizing acc with
  | nil => exact h
  | cons s rest ih => exact ih _ (usNodupKeys_step _ _ h)

/-- C4 (amended): the dedup of `get_comprehensive_us_stock_listing` emits at
most one record per normalized key — the trimmed, upper-cased code — so in its
output two US records whose codes differ only in letter case never both
appear.  (The claim additionally asserted this of `get_us_stocks` in
`generate_symbols_json.py`, which dedups on the raw trimmed, case-sensitive
symbol instead; see the counterexample.) -/
theorem C4_us_dedup_unique_normalized_key (stocks : List RawStock) :
    ((usDedup stocks).map usKey).Nodup := by
  have hw : UsWellKeyed (stocks.foldl usDedupStep []) :=
    usWellKeyed_fold _ _ (by intro p hp; simp at hp)
  have hn : ((stocks.foldl usDedupStep []).map Prod.fst).Nodup :=
    usNodupKeys_fold _ _ (by simp)
  have hmap : (usDedup stocks).map usKey = (stocks.foldl usDedupStep []).map Prod.fst := by
    rw [usDedup, List.map_map]
    exact List.map_congr_left (fun p hp => hw p hp)
  rw [hmap]
  exact hn

/-- GitHub ticker-list source of `get_us_stocks`
(`scripts/generate_symbols_json.py` lines 596-614): each stripped non-empty
ticker not already in `existing_symbols` is appended as a record whose code
and name are the raw ticker, with no case normalization. -/
def githubTickerStep (exchange : String) (st : List SymbolRecord × List String)
    (t0 : String) : List SymbolRecord × List String :=
  if pyStrip t0 ≠ "" ∧ pyStrip t0 ∉ st.2 then
    (st.1 ++ [⟨pyStrip t0, pyStrip t0, exchange, "US", some "Common Stock"⟩],
      st.2 ++ [pyStrip t0])
  else st

def addGithubTickers (exchange : String) (tickers : List String)
    (st : List SymbolRecord × List String) : List SymbolRecord × List String :=
  tickers.foldl (githubTickerStep exchange) st

/-- Output of `get_us_stocks` when neither `FINNHUB_API_KEY` nor `FMP_API_KEY`
is set (both sources skipped, lines 544-545 and 586-587): only the three
GitHub ticker lists contribute, in the order NASDAQ, NYSE, AMEX
(lines 590-594). -/
def getUsStocksGithubOnly (nasdaq nyse amex : List String) : List SymbolRecord :=
  (addGithubTickers "AMEX" amex
    (addGithubTickers "NYSE" nyse
      (addGithubTickers "NASDAQ" nasdaq ([], [])))).1

/-- C4 counterexample: `get_us_stocks` emits both a record with code `aapl`
and a record with code `AAPL` — two US records whose codes differ only in
letter case and share the normalized uniqueness key — because its
`existing_symbols` test is case-sensitive. -/
theorem C4_counterexample :
    (⟨"aapl", "aapl", "NASDAQ", "US", some "Common Stock"⟩ : SymbolRecord) ∈
      getUsStocksGithubOnly ["aapl"] ["AAPL"] [] ∧
    (⟨"AAPL", "AAPL", "NYSE", "US", some "Common Stock"⟩ : SymbolRecord) ∈
      getUsStocksGithubOnly ["aapl"] ["AAPL"] [] ∧
    pyUpper (pyStrip "aapl") = pyUpper (pyStrip "AAPL") := by
  decide

/-! Retry controller of `get_stock_listing` (claim C5). -/

/-- Trace of the FinanceDataReader attempt loop of `get_stock_listing`
(`scripts/get_stock_listing.py` lines 71-115): how many times the wrapped
call was invoked, the sleeps performed before retries (line 74:
`wait_time = retry_delay * attempt`, slept only for `attempt > 0`), the
successful data if any, and the last error message.  The
`json.JSONDecodeError` handler (lines 101-105) and the generic exception
handler (lines 107-115) both record `last_error` and continue, so a failing
call is a single `.error`. -/
structure FdrTrace where
  calls : Nat
  sleeps : List Nat
  result : Option (List RawStock)
  lastError : Option String
deriving DecidableEq, Repr

/-- The attempt loop itself: `attempt` is the 0-based `for attempt in
range(max_retries)` index, `remaining` the number of attempts left. -/
def fdrAttempts (fdr : Nat → Except String (List RawStock)) (retryDelay : Nat) :
    Nat → Nat → Option String → FdrTrace
  | _, 0, lastErr => ⟨0, [], none, lastErr⟩
  | attempt, remaining + 1, lastErr =>
    let sleeps := if attempt > 0 then [retryDelay * attempt] else []
    match fdr attempt with
    | .ok data => ⟨1, sleeps, some data, lastErr⟩
    | .error e =>
      let t := fdrAttempts fdr retryDelay (attempt + 1) remaining (some e)
      ⟨t.calls + 1, sleeps ++ t.sleeps, t.result, t.lastError⟩

/-- Outcome of `get_stock_listing`: either data with its source label, or the
failure dict of lines 123-129 carrying the last FDR error and the fallback
error. -/
inductive StockListingOutcome where
  | ok (data : List RawStock) (source : String)
  | err (error : String) (fallbackError : String)
deriving DecidableEq, Repr

/-- Function `get_stock_listing` (lines 66-129): run the retry loop from
attempt 0 with no previous error; on success return the FDR data
(`source: fdr_stocklisting`); otherwise fall back to the GitHub CSV
(lines 117-121); if that also fails, report the last error
(`last_error or "Unknown error"`). -/
def get_stock_listing (maxRetries retryDelay : Nat)
    (fdr : Nat → Except String (List RawStock))
    (github : Except String (List RawStock)) : StockListingOutcome :=
  let t := fdrAttempts fdr retryDelay 0 maxRetries none
  match t.result with
  | some data => .ok data "fdr_stocklisting"
  | none =>
    match github with
    | .ok g => .ok g "github_csv"
    | .error ge => .err (t.lastError.getD "Unknown error") ge

theorem fdrAttempts_calls_le (g : Nat → Except String (List RawStock))
    (d : Nat) : ∀ remaining attempt lastErr,
    (fdrAttempts g d attempt remaining lastErr).calls ≤ remaining := by
  intro remaining
  induction remaining with
  | zero => intro attempt lastErr; exact Nat.le_refl 0
  | succ n ih =>
    intro attempt lastErr
    unfold fdrAttempts
    cases g attempt with
    | ok data => exact Nat.succ_le_succ (Nat.zero_le n)
    | error e => exact Nat.succ_le_succ (ih (attempt + 1) (some e))

theorem fdrAttempts_all_fail (g : Nat → Except String (List RawStock))
    (errs : Nat → String) (d : Nat) :
    ∀ remaining attempt lastErr, 1 ≤ attempt →
    (∀ i, attempt ≤ i → i < attempt + remaining → g i = .error (errs i)) →
    fdrAttempts g d attempt remaining lastErr =
      ⟨remaining, (List.range' attempt remaining).map (fun a => d * a), none,
        if remaining = 0 then lastErr else some (errs (attempt + remaining - 1))⟩ := by
  intro remaining
  induction remaining with
  | zero => intro attempt lastErr h1 hf; rfl
  | succ n ih =>
    intro attempt lastErr h1 hf
    have hga : g attempt = .error (errs attempt) :=
      hf attempt (Nat.le_refl _) (Nat.lt_add_of_pos_right (Nat.succ_pos n))
    have hrec := ih (attempt + 1) (some (errs attempt)) (Nat.le_succ_of_le h1)
      (fun i hi1 hi2 => hf i (Nat.le_of_succ_le hi1) (by omega))
    have hpos : attempt > 0 := h1
    have hsleeps : [d * attempt] ++ (List.range' (attempt + 1) n).map (fun a => d * a)
        = (List.range' attempt (n + 1)).map (fun a => d * a) := by
      rw [List.range'_succ]
      simp
    have hlast : (if n = 0 then some (errs attempt) else some (errs (attempt + 1 + n - 1)))
        = some (errs (attempt + (n + 1) - 1)) := by
      rcases Nat.eq_zero_or_pos n with hn | hn
      · simp [hn]
      · have he : attempt + 1 + n - 1 = attempt + (n + 1) - 1 := by omega
        simp [Nat.pos_iff_ne_zero.mp hn, he]
    unfold fdrAttempts
    simp only [hga, hrec, hpos, if_true, hlast]
    simp only [FdrTrace.mk.injEq, Nat.succ_ne_zero, if_false]
    exact ⟨trivial, hsleeps, trivial, trivial⟩

/-- C5: the retry controller of `get_stock_listing` invokes the wrapped
FinanceDataReader call at most `maxRetries` times (default 3); an
always-failing call is invoked exactly `maxRetries` times, never more,
sleeping `retryDelay * attemptIndex` for attemptIndex = 1, …, maxRetries-1
before each retry (linear backoff); JSON-parse errors and other errors take
the same retried path; after exhausting the attempts the pipeline proceeds to
the GitHub fallback source, and when that also fails it returns the last
error. -/
theorem C5_retry_bound (maxRetries retryDelay : Nat)
    (fdr : Nat → Except String (List RawStock)) (errs : Nat → String)
    (hpos : 0 < maxRetries)
    (hfail : ∀ i, i < maxRetries → fdr i = .error (errs i)) :
    (∀ g : Nat → Except String (List RawStock), ∀ le,
        (fdrAttempts g retryDelay 0 maxRetries le).calls ≤ maxRetries) ∧
    (fdrAttempts fdr retryDelay 0 maxRetries none).calls = maxRetries ∧
    (fdrAttempts fdr retryDelay 0 maxRetries none).sleeps
      = (List.range' 1 (maxRetries - 1)).map (fun a => retryDelay * a) ∧
    (fdrAttempts fdr retryDelay 0 maxRetries none).result = none ∧
    (∀ g, get_stock_listing maxRetries retryDelay fdr (Except.ok g)
        = .ok g "github_csv") ∧
    (∀ ge, get_stock_listing maxRetries retryDelay fdr (Except.error ge)
        = .err (errs (maxRetries - 1)) ge) := by
  obtain ⟨m, rfl⟩ : ∃ m, maxRetries = m + 1 :=
    ⟨maxRetries - 1, (Nat.succ_pred_eq_of_pos hpos).symm⟩
  have hf0 : fdr 0 = .error (errs 0) := hfail 0 (Nat.succ_pos m)
  have hrec := fdrAttempts_all_fail fdr errs retryDelay m 1 (some (errs 0))
    (Nat.le_refl 1) (fun i hi1 hi2 => hfail i (by omega))
  have htop : fdrAttempts fdr retryDelay 0 (m + 1) none =
      ⟨m + 1, (List.range' 1 m).map (fun a => retryDelay * a), none,
        some (errs m)⟩ := by
    have hlast : (if m = 0 then some (errs 0) else some (errs (1 + m - 1)))
        = some (errs m) := by
      rcases Nat.eq_zero_or_pos m with hm | hm
      · simp [hm]
      · have he : 1 + m - 1 = m := by omega
        simp [Nat.pos_iff_ne_zero.mp hm, he]
    unfold fdrAttempts
    simp only [hf0, hrec, hlast]
    simp
  refine ⟨fun g le => fdrAttempts_calls_le g retryDelay (m + 1) 0 le, ?_, ?_, ?_, ?_, ?_⟩
  · rw [htop]
  · rw [htop]
    simp
  · rw [htop]
  · intro g
    simp only [get_stock_listing, htop]
  · intro ge
    simp only [get_stock_listing, htop]
    rfl

/-- C5 witness: with `maxRetries = 3`, `retryDelay = 2` and a call that
always raises, the call is made exactly 3 times, the sleeps are 2 and 4
seconds, and after the GitHub fallback also fails the last error is
reported. -/
theorem C5_retry_bound_witness :
    (fdrAttempts (fun _ => .error "boom") 2 0 3 none).calls = 3 ∧
    (fdrAttempts (fun _ => .error "boom") 2 0 3 none).sleeps = [2, 4] ∧
    get_stock_listing 3 2 (fun _ => .error "boom") (Except.error "gh down")
      = .err "boom" "gh down" := by
  have h := C5_retry_bound 3 2 (fun _ => .error "boom") (fun _ => "boom")
    (by decide) (fun i _ => rfl)
  refine ⟨h.2.1, ?_, h.2.2.2.2.2 "gh down"⟩
  rw [h.2.2.1]
  decide

/-! Pagination loops (claim C6). -/

/-- Result of fetching one portal page in `fetch_market_stocks`
(`scripts/generate_symbols_json.py` lines 91-145): `fail` covers both a
request exception (line 143) and a page without the expected `type_2` table
(lines 101-104); otherwise the page carries the scraped `(code, name)`
anchor rows and whether the last-page marker `pgRR` is present (line 137). -/
inductive PageFetch where
  | fail
  | page (rows : List (String × String)) (hasNext : Bool)
deriving DecidableEq, Repr

/-- One row of `fetch_market_stocks` (lines 109-130): a `(code, name)` anchor
whose code is 6 digits (line 121) and not yet in `existing_codes` is appended
to the state and counted in `found_stocks`. -/
def addRowStep (market : String) (acc : (List SymbolRecord × List String) × Nat)
    (row : String × String) : (List SymbolRecord × List String) × Nat :=
  if row.1 ≠ "" ∧ pyIsDigit row.1 ∧ row.1.length = 6 ∧ row.1 ∉ acc.1.2 then
    ((acc.1.1 ++ [⟨row.1, row.2, market, "KR", none⟩], acc.1.2 ++ [row.1]), acc.2 + 1)
  else acc

/-- Row-processing loop of `fetch_market_stocks` over one page's rows. -/
def addRows (market : String) (rows : List (String × String))
    (st : List SymbolRecord × List String) : (List SymbolRecord × List String) × Nat :=
  rows.foldl (addRowStep market) (st, 0)

/-- Page loop of `fetch_market_stocks` (lines 91-145): `page` is the 1-based
page number of `while page <= max_pages`, `fuel` the number of iterations the
ceiling still allows.  Returns the final state and the number of pages
fetched.  The loop breaks on a failed fetch, on `found_stocks == 0`
(line 133), and on a missing `pgRR` marker (line 139). -/
def fetchLoop (fetchPage : Nat → PageFetch) (market : String) :
    Nat → Nat → List SymbolRecord × List String →
      (List SymbolRecord × List String) × Nat
  | _, 0, st => (st, 0)
  | page, fuel + 1, st =>
    match fetchPage page with
    | .fail => (st, 1)
    | .page rows hasNext =>
      let r := addRows market rows st
      if r.2 = 0 then (r.1, 1)
      else if hasNext = false then (r.1, 1)
      else
        let nxt := fetchLoop fetchPage market (page + 1) fuel r.1
        (nxt.1, nxt.2 + 1)

/-- `fetch_market_stocks` itself: pages start at 1, `max_pages = 50`
(line 89). -/
def fetch_market_stocks (fetchPage : Nat → PageFetch) (market : String)
    (st : List SymbolRecord × List String) :
    (List SymbolRecord × List String) × Nat :=
  fetchLoop fetchPage market 1 50 st

/-- Row filter of `get_korea_etf_from_naver` (lines 205-223): a link row is
added when its code is 6 digits, its name non-empty and the code unseen. -/
def addEtfRows (rows : List (String × String))
    (st : List SymbolRecord × List String) : (List SymbolRecord × List String) × Nat :=
  rows.foldl (fun acc row =>
    if row.1 ≠ "" ∧ pyIsDigit row.1 ∧ row.1.length = 6 ∧ row.2 ≠ "" ∧ row.1 ∉ acc.1.2 then
      ((acc.1.1 ++ [⟨row.1, row.2, "ETF", "KR", none⟩], acc.1.2 ++ [row.1]), acc.2 + 1)
    else acc) (st, 0)

/-- Page loop of `get_korea_etf_from_naver` (lines 182-232): its ceiling is
`max_pages = 20` (line 183), and it stops on `found_etfs == 0` (line 225) or
a request exception (line 230) — there is no last-page-marker check.  A
`none` fetch models the exception. -/
def etfLoop (fetchPage : Nat → Option (List (String × String))) :
    Nat → Nat → List SymbolRecord × List String →
      (List SymbolRecord × List String) × Nat
  | _, 0, st => (st, 0)
  | page, fuel + 1, st =>
    match fetchPage page with
    | none => (st, 1)
    | some rows =>
      let r := addEtfRows rows st
      if r.2 = 0 then (r.1, 1)
      else
        let nxt := etfLoop fetchPage (page + 1) fuel r.1
        (nxt.1, nxt.2 + 1)

theorem fetchLoop_pages_le (f : Nat → PageFetch) (market : String) :
    ∀ fuel page st, (fetchLoop f market page fuel st).2 ≤ fuel := by
  intro fuel
  induction fuel with
  | zero => intro page st; exact Nat.le_refl 0
  | succ n ih =>
    intro page st
    unfold fetchLoop
    cases f page with
    | fail => exact Nat.succ_le_succ (Nat.zero_le n)
    | page rows hasNext =>
      by_cases h0 : (addRows market rows st).2 = 0
      · simp only [h0, if_true]
        exact Nat.succ_le_succ (Nat.zero_le n)
      · by_cases hn : hasNext = false
        · simp only [h0, if_false, hn, if_true]
          exact Nat.succ_le_succ (Nat.zero_le n)
        · simp only [h0, if_false, hn]
          exact Nat.succ_le_succ (ih (page + 1) (addRows market rows st).1)

theorem etfLoop_pages_le (f : Nat → Option (List (String × String))) :
    ∀ fuel page st, (etfLoop f page fuel st).2 ≤ fuel := by
  intro fuel
  induction fuel with
  | zero => intro page st; exact Nat.le_refl 0
  | succ n ih =>
    intro page st
    unfold etfLoop
    cases f page with
    | none => exact Nat.succ_le_succ (Nat.zero_le n)
    | some rows =>
      by_cases h0 : (addEtfRows rows st).2 = 0
      · simp only [h0, if_true]
        exact Nat.succ_le_succ (Nat.zero_le n)
      · simp only [h0, if_false]
        exact Nat.succ_le_succ (ih (page + 1) (addEtfRows rows st).1)

theorem fetchLoop_runs_to_ceiling (f : Nat → PageFetch) (market : String)
    (c nm : Nat → String)
    (hpage : ∀ p, p ≤ 50 → f p = .page [(c p, nm p)] true)
    (hvalid : ∀ p, p ≤ 50 → (c p ≠ "" ∧ pyIsDigit (c p) ∧ (c p).length = 6))
    (hinj : ∀ p, p ≤ 50 → ∀ q, q ≤ 50 → c p = c q → p = q) :
    ∀ fuel page st, 1 ≤ page → page + fuel ≤ 51 →
      (∀ p, page ≤ p → p ≤ 50 → c p ∉ st.2) →
      (fetchLoop f market page fuel st).2 = fuel := by
  intro fuel
  induction fuel with
  | zero => intro page st h1 h51 hfresh; rfl
  | succ n ih =>
    intro page st h1 h51 hfresh
    have hp50 : page ≤ 50 := by omega
    obtain ⟨hc1, hc2, hc3⟩ := hvalid page hp50
    have hm : c page ∉ st.2 := hfresh page (Nat.le_refl _) hp50
    have hr : addRows market [(c page, nm page)] st
        = ((st.1 ++ [⟨c page, nm page, market, "KR", none⟩], st.2 ++ [c page]), 1) := by
      simp only [addRows, addRowStep, List.foldl_cons, List.foldl_nil]
      rw [if_pos ⟨hc1, hc2, hc3, hm⟩]
    have hrec := ih (page + 1) (st.1 ++ [⟨c page, nm page, market, "KR", none⟩],
        st.2 ++ [c page]) (by omega) (by omega) ?_
    · unfold fetchLoop
      simp only [hpage page hp50, hr]
      simp only [Nat.one_ne_zero, if_false, Bool.true_eq_false, if_false]
      rw [hrec]
    · intro p hp1 hp50'
      simp only [List.mem_append, List.mem_singleton]
      push_neg
      refine ⟨hfresh p (by omega) hp50', ?_⟩
      intro heq
      have := hinj p hp50' page hp50 heq
      omega

/-- C6 (amended): both portal page loops terminate — the number of pages
fetched never exceeds the ceiling, which is 50 for `fetch_market_stocks` but
20 for the ETF loop — and a page yielding zero new records stops the loop;
`fetch_market_stocks` additionally stops when the fetch fails (exception or
missing table) or when the `pgRR` last-page marker is absent, even if the
page yielded new records; only when every page up to the ceiling yields a
fresh valid record and carries the marker does the loop run to all 50
pages. -/
theorem C6_pagination (f : Nat → PageFetch) (market : String)
    (st : List SymbolRecord × List String) (c nm : Nat → String)
    (hpage : ∀ p, p ≤ 50 → f p = .page [(c p, nm p)] true)
    (hvalid : ∀ p, p ≤ 50 → (c p ≠ "" ∧ pyIsDigit (c p) ∧ (c p).length = 6))
    (hinj : ∀ p, p ≤ 50 → ∀ q, q ≤ 50 → c p = c q → p = q)
    (hfresh : ∀ p, p ≤ 50 → c p ∉ st.2) :
    (∀ f' market' fuel page st', (fetchLoop f' market' page fuel st').2 ≤ fuel) ∧
    (∀ g fuel page st', (etfLoop g page fuel st').2 ≤ fuel) ∧
    (fetch_market_stocks f market st).2 = 50 ∧
    (∀ f' market' page fuel st' rows hasNext, f' page = .page rows hasNext →
      (addRows market' rows st').2 = 0 →
      (fetchLoop f' market' page (fuel + 1) st').2 = 1) ∧
    (∀ f' market' page fuel st' rows, f' page = .page rows false →
      (fetchLoop f' market' page (fuel + 1) st').2 = 1) ∧
    (∀ g page fuel st' rows, g page = some rows → (addEtfRows rows st').2 = 0 →
      (etfLoop g page (fuel + 1) st').2 = 1) := by
  refine ⟨fetchLoop_pages_le, etfLoop_pages_le, ?_, ?_, ?_, ?_⟩
  · exact fetchLoop_runs_to_ceiling f market c nm hpage hvalid hinj 50 1 st
      (Nat.le_refl 1) (by omega) (fun p _ hp => hfresh p hp)
  · intro f' market' page fuel st' rows hasNext hf h0
    unfold fetchLoop
    simp only [hf, h0, if_true]
  · intro f' market' page fuel st' rows hf
    unfold fetchLoop
    simp only [hf]
    by_cases h0 : (addRows market' rows st').2 = 0
    · simp [h0]
    · simp [h0]
  · intro g page fuel st' rows hg h0
    unfold etfLoop
    simp only [hg, h0, if_true]

/-- C6 witness: a fetch whose pages always contain one fresh valid code and
the next-page marker drives `fetch_market_stocks` to exactly 50 pages, and a
page scrape failure stops it after one page. -/
theorem C6_pagination_witness :
    (fetch_market_stocks (fun p => PageFetch.page [(toString (690000 + p), "종목")] true)
        "KOSPI" ([], [])).2 = 50 ∧
    (fetchLoop (fun _ => PageFetch.fail) "KOSPI" 1 50 ([], [])).2 ≤ 50 := by
  have h := C6_pagination (fun p => PageFetch.page [(toString (690000 + p), "종목")] true)
    "KOSPI" ([], []) (fun p => toString (690000 + p)) (fun _ => "종목")
    (fun p _ => rfl) (by decide) (by decide) (by decide)
  exact ⟨h.2.2.1, h.1 _ _ _ _ _⟩

/-- C6 counterexample: the claim's "stops exactly on zero new records or the
50-page ceiling" is false on both cited loops: `fetch_market_stocks` stops
after page 1 when the `pgRR` marker is absent even though that page yielded a
new record and the ceiling is far, and the ETF loop's ceiling is 20 pages,
where it stops although every page still yields new records. -/
theorem C6_counterexample :
    (fetchLoop (fun _ => PageFetch.page [("005930", "삼성전자")] false) "KOSPI" 1 50
        ([], [])).2 = 1 ∧
    (addRows "KOSPI" [("005930", "삼성전자")]
        (([], []) : List SymbolRecord × List String)).2 = 1 ∧
    (etfLoop (fun p => some [(toString (690000 + p), "코덱스")]) 1 20 ([], [])).2 = 20 := by
  refine ⟨by decide, by decide, by decide⟩

/-! Name-to-code search (`scripts/search_stock_by_name.py`, claim C7). -/

/-- Sequence-prefix test used to model Python's substring operator. -/
def startsWithSeq : List Char → List Char → Bool
  | [], _ => true
  | _ :: _, [] => false
  | a :: as, b :: bs => a = b && startsWithSeq as bs

/-- Python `needle in hay` on strings, as a structural scan. -/
def containsSeq (pat : List Char) : List Char → Bool
  | [] => pat.isEmpty
  | a :: rest => startsWithSeq pat (a :: rest) || containsSeq pat rest

/-- Query normalization (line 73): remove spaces, tabs and newlines. -/
def normalizeQuery (s : String) : String :=
  String.mk (s.data.filter (fun ch => ch ≠ ' ' ∧ ch ≠ '\t' ∧ ch ≠ '\n'))

/-- Removal of the corporate-suffix literal `(주)`, scanning left to right as
Python `str.replace` does. -/
def removeJusik : List Char → List Char
  | '(' :: '주' :: ')' :: rest => removeJusik rest
  | ch :: rest => ch :: removeJusik rest
  | [] => []

/-- Name normalization (line 100): remove whitespace, the `㈜` sign and the
`(주)` suffix, in that order. -/
def normalizeName (s : String) : String :=
  String.mk (removeJusik
    ((s.data.filter (fun ch => ch ≠ ' ' ∧ ch ≠ '\t' ∧ ch ≠ '\n')).filter (fun ch => ch ≠ '㈜')))

/-- One scraped page of the search: the three selector passes of method 1
(lines 77-81: `'a'`, `'td'`, `'div'`), each element either carrying its
extracted `(code, link text)` stock link or `none` when the element yields no
usable link — such an element still occupies one of the thirty slots the pass
scans (lines 86-95); then the table links scanned by method 2
(lines 123-141), the `h2.wrap_company` text for method 3 (lines 152-154), and
whether this URL is the direct `/item/main.naver?code=` form (line 144). -/
structure SearchPage where
  anchorPass : List (Option (String × String))
  tdPass : List (Option (String × String))
  divPass : List (Option (String × String))
  tableLinks : List (String × String)
  companyName : Option String
  isCodeUrl : Bool
deriving DecidableEq, Repr

/-- One selector pass of method 1 (lines 86-118), fed the pass's first 30
elements and the shared results so far: an element with no link is skipped
(`continue`, line 90); a valid unseen link whose normalized name equals the
normalized query is inserted at the front and the pass stops (the `break` at
line 109 leaves only the current element loop); a substring match is
appended, stopping the pass once five results exist (lines 117-118). -/
def method1Pass (query : String) :
    List (Option (String × String)) → List RawStock → List RawStock
  | [], acc => acc
  | none :: rest, acc => method1Pass query rest acc
  | some (code, name) :: rest, acc =>
    if pyIsDigit code ∧ code.length = 6 ∧ name ≠ "" ∧
        ¬ acc.any (fun r => r.symbol = code) then
      if normalizeQuery query = normalizeName name then
        ⟨code, name, "KRX"⟩ :: acc
      else if containsSeq (normalizeQuery query).data (normalizeName name).data then
        if acc.length + 1 ≥ 5 then acc ++ [⟨code, name, "KRX"⟩]
        else method1Pass query rest (acc ++ [⟨code, name, "KRX"⟩])
      else method1Pass query rest acc
    else method1Pass query rest acc

/-- The between-pass step of the selector loop: the `if len(results) >= 5:
break` check at lines 119-120, then the next pass over its own
`elements[:30]`. -/
def method1After (query : String) (elems : List (Option (String × String)))
    (acc : List RawStock) : List RawStock :=
  if 5 ≤ acc.length then acc else method1Pass query (elems.take 30) acc

/-- Method 1 (lines 77-120): the `'a'`, `'td'` and `'div'` selector passes
run in order over the shared results list. -/
def method1 (query : String) (page : SearchPage) : List RawStock :=
  method1After query page.divPass
    (method1After query page.tdPass
      (method1Pass query (page.anchorPass.take 30) []))

/-- Method-2 scan (lines 123-141): every distinct valid stock link found in
tables is appended — with no cap and no matching against the query. -/
def method2 (tableLinks : List (String × String)) (acc : List RawStock) : List RawStock :=
  tableLinks.foldl (fun acc row =>
    if pyIsDigit row.1 ∧ row.1.length = 6 ∧ ¬ acc.any (fun r => r.symbol = row.1) then
      acc ++ [⟨row.1, row.2, "KRX"⟩]
    else acc) acc

/-- Method-3 extraction (lines 144-160): on the direct code URL, the company
header record is appended when present and unseen. -/
def method3 (query : String) (page : SearchPage) (acc : List RawStock) : List RawStock :=
  if page.isCodeUrl ∧ pyIsDigit query ∧ query.length = 6 then
    match page.companyName with
    | some nm =>
      if nm ≠ "" ∧ ¬ acc.any (fun r => r.symbol = query) then acc ++ [⟨query, nm, "KRX"⟩]
      else acc
    | none => acc
  else acc

def searchOnPage (query : String) (page : SearchPage) : List RawStock :=
  method3 query page (method2 page.tableLinks (method1 query page))

structure SearchOutput where
  success : Bool
  data : List RawStock
  count : Nat
deriving DecidableEq, Repr

/-- URL loop of `search_stock_by_name` (lines 56-166): pages are tried in
order and the first page producing results wins; an empty run still returns
`success:true` with no data (lines 168-172). -/
def searchPages (query : String) : List SearchPage → SearchOutput
  | [] => ⟨true, [], 0⟩
  | pg :: rest =>
    let rs := searchOnPage query pg
    if rs.isEmpty then searchPages query rest else ⟨true, rs, rs.length⟩

/-- Function `search_stock_by_name` (lines 16-179): a 6-digit query first
tries the direct ticker page (lines 20-46), whose extracted company name is
`direct`; a non-empty extraction returns immediately, anything else falls
through to the URL loop. -/
def search_stock_by_name (query : String) (direct : Option String)
    (pages : List SearchPage) : SearchOutput :=
  if pyIsDigit query ∧ query.length = 6 then
    match direct with
    | some nm =>
      if nm ≠ "" then ⟨true, [⟨query, nm, "KRX"⟩], 1⟩ else searchPages query pages
    | none => searchPages query pages
  else searchPages query pages

theorem method1Pass_length (query : String) :
    ∀ l acc, acc.length ≤ 4 → (method1Pass query l acc).length ≤ 5 := by
  intro l
  induction l with
  | nil => intro acc h; simpa [method1Pass] using Nat.le_trans h (by omega)
  | cons el rest ih =>
    intro acc h
    cases el with
    | none =>
      rw [method1Pass]
      exact ih acc h
    | some a =>
      obtain ⟨code, name⟩ := a
      rw [method1Pass]
      by_cases hc : pyIsDigit code ∧ code.length = 6 ∧ name ≠ "" ∧
          ¬ acc.any (fun r => r.symbol = code)
      · rw [if_pos hc]
        by_cases hex : normalizeQuery query = normalizeName name
        · rw [if_pos hex]
          simp only [List.length_cons]
          omega
        · rw [if_neg hex]
          by_cases hsub : containsSeq (normalizeQuery query).data (normalizeName name).data = true
          · rw [if_pos hsub]
            by_cases hfull : acc.length + 1 ≥ 5
            · rw [if_pos hfull]
              simp only [List.length_append, List.length_singleton]
              omega
            · rw [if_neg hfull]
              exact ih _ (by simp only [List.length_append, List.length_singleton]; omega)
          · rw [if_neg hsub]
            exact ih _ h
      · rw [if_neg hc]
        exact ih _ h

/-- A record whose normalized name equals the normalized query. -/
abbrev IsExactFor (query : String) (r : RawStock) : Prop :=
  normalizeQuery query = normalizeName r.name

/-- A results list that holds an exact match only with an exact match at its
head. -/
def HeadExact (query : String) (l : List RawStock) : Prop :=
  (∃ r ∈ l, IsExactFor query r) → ∃ r0, l.head? = some r0 ∧ IsExactFor query r0

theorem headExact_append (query : String) (acc : List RawStock) (p : RawStock)
    (hp : ¬ IsExactFor query p) (h : HeadExact query acc) :
    HeadExact query (acc ++ [p]) := by
  rintro ⟨r, hr, hex⟩
  rcases List.mem_append.mp hr with hr | hr
  · obtain ⟨r0, h0, hex0⟩ := h ⟨r, hr, hex⟩
    refine ⟨r0, ?_, hex0⟩
    cases acc with
    | nil => simp at hr
    | cons a as => simpa using h0
  · simp only [List.mem_singleton] at hr
    exact absurd (hr ▸ hex) hp

theorem method1Pass_headExact (query : String) :
    ∀ l acc, HeadExact query acc → HeadExact query (method1Pass query l acc) := by
  intro l
  induction l with
  | nil => intro acc h; exact h
  | cons el rest ih =>
    intro acc h
    cases el with
    | none =>
      rw [method1Pass]
      exact ih acc h
    | some a =>
      obtain ⟨code, name⟩ := a
      rw [method1Pass]
      by_cases hc : pyIsDigit code ∧ code.length = 6 ∧ name ≠ "" ∧
          ¬ acc.any (fun r => r.symbol = code)
      · rw [if_pos hc]
        by_cases hexa : normalizeQuery query = normalizeName name
        · rw [if_pos hexa]
          rintro -
          exact ⟨⟨code, name, "KRX"⟩, rfl, hexa⟩
        · rw [if_neg hexa]
          by_cases hsub : containsSeq (normalizeQuery query).data (normalizeName name).data = true
          · rw [if_pos hsub]
            by_cases hfull : acc.length + 1 ≥ 5
            · rw [if_pos hfull]
              exact headExact_append query acc _ hexa h
            · rw [if_neg hfull]
              exact ih _ (headExact_append query acc _ hexa h)
          · rw [if_neg hsub]
            exact ih acc h
      · rw [if_neg hc]
        exact ih acc h

theorem method1After_length (query : String) (elems : List (Option (String × String)))
    (acc : List RawStock) (h : acc.length ≤ 5) :
    (method1After query elems acc).length ≤ 5 := by
  rw [method1After]
  by_cases h5 : 5 ≤ acc.length
  · rw [if_pos h5]
    exact h
  · rw [if_neg h5]
    exact method1Pass_length query _ acc (by omega)

theorem method1After_headExact (query : String)
    (elems : List (Option (String × String))) (acc : List RawStock)
    (h : HeadExact query acc) : HeadExact query (method1After query elems acc) := by
  rw [method1After]
  by_cases h5 : 5 ≤ acc.length
  · rw [if_pos h5]
    exact h
  · rw [if_neg h5]
    exact method1Pass_headExact query _ acc h

theorem method1_length (query : String) (page : SearchPage) :
    (method1 query page).length ≤ 5 :=
  method1After_length query _ _
    (method1After_length query _ _
      (method1Pass_length query _ [] (by simp)))

theorem method1_headExact (query : String) (page : SearchPage) :
    HeadExact query (method1 query page) :=
  method1After_headExact query _ _
    (method1After_headExact query _ _
      (method1Pass_headExact query _ []
        (by rintro ⟨r, hr, hex⟩; simp at hr)))

theorem method2_append_only (tableLinks : List (String × String)) :
    ∀ acc, ∃ extra, method2 tableLinks acc = acc ++ extra := by
  induction tableLinks with
  | nil => intro acc; exact ⟨[], by simp [method2]⟩
  | cons row rest ih =>
    intro acc
    rw [method2, List.foldl_cons]
    by_cases hc : pyIsDigit row.1 ∧ row.1.length = 6 ∧ ¬ acc.any (fun r => r.symbol = row.1)
    · obtain ⟨extra, hextra⟩ := ih (acc ++ [⟨row.1, row.2, "KRX"⟩])
      refine ⟨[⟨row.1, row.2, "KRX"⟩] ++ extra, ?_⟩
      rw [if_pos hc] at *
      rw [show method2 rest (acc ++ [⟨row.1, row.2, "KRX"⟩])
          = List.foldl _ (acc ++ [⟨row.1, row.2, "KRX"⟩]) rest from rfl] at hextra
      rw [hextra, List.append_assoc]
    · obtain ⟨extra, hextra⟩ := ih acc
      refine ⟨extra, ?_⟩
      rw [if_neg hc]
      exact hextra

theorem method3_append_only (query : String) (page : SearchPage)
    (acc : List RawStock) : ∃ extra, method3 query page acc = acc ++ extra := by
  rw [method3]
  by_cases hc : page.isCodeUrl ∧ pyIsDigit query ∧ query.length = 6
  · rw [if_pos hc]
    cases hpc : page.companyName with
    | none => exact ⟨[], by simp⟩
    | some nm =>
      by_cases hn : nm ≠ "" ∧ ¬ acc.any (fun r => r.symbol = query)
      · refine ⟨[⟨query, nm, "KRX"⟩], ?_⟩
        show (if nm ≠ "" ∧ ¬ acc.any (fun r => r.symbol = query) then
            acc ++ [⟨query, nm, "KRX"⟩] else acc) = _
        rw [if_pos hn]
      · refine ⟨[], ?_⟩
        show (if nm ≠ "" ∧ ¬ acc.any (fun r => r.symbol = query) then
            acc ++ [⟨query, nm, "KRX"⟩] else acc) = _
        rw [if_neg hn]
        simp
  · rw [if_neg hc]
    exact ⟨[], by simp⟩

/-- C7 (amended): method 1 of `search_stock_by_name` — the three selector
passes over at most 30 elements each — returns at most 5 candidates, and
whenever its result contains an exact normalized-name match, its head is an
exact match (a later pass may have inserted a different exact-matching code
in front of an earlier one); the table scan (method 2) and the code-page
fallback (method 3) only append after it, so that head stays first in the
whole result — but they append with no cap or query matching, so the full
result set can exceed 5 candidates, and an exact-named link found only by
them is appended, not ranked first (see the counterexample for the cap). -/
theorem C7_search (query : String) (page : SearchPage) :
    (method1 query page).length ≤ 5 ∧
    (∃ extra, searchOnPage query page = method1 query page ++ extra) ∧
    ((∃ r ∈ method1 query page, IsExactFor query r) →
      ∃ r0, (method1 query page).head? = some r0 ∧
        (searchOnPage query page).head? = some r0 ∧ IsExactFor query r0) := by
  obtain ⟨e2, he2⟩ := method2_append_only page.tableLinks (method1 query page)
  obtain ⟨e3, he3⟩ := method3_append_only query page (method2 page.tableLinks (method1 query page))
  have happ : searchOnPage query page = method1 query page ++ (e2 ++ e3) := by
    rw [searchOnPage, he3, he2, List.append_assoc]
  refine ⟨method1_length query page, ⟨e2 ++ e3, happ⟩, ?_⟩
  intro hex
  obtain ⟨r0, h0, hex0⟩ := method1_headExact query page hex
  refine ⟨r0, h0, ?_, hex0⟩
  rw [happ]
  cases hm : method1 query page with
  | nil =>
    rw [hm] at h0
    simp at h0
  | cons a as =>
    rw [hm] at h0
    simpa using h0

/-- C7 witness: on a page whose anchor pass holds a partial match followed by
the exact match 삼성전자, the head of method 1's result — and of the whole
page result — is an exact match. -/
theorem C7_search_witness :
    ∃ r0, (method1 "삼성전자"
        ⟨[some ("005935", "삼성전자우"), some ("005930", "삼성전자")], [], [], [],
          none, false⟩).head? = some r0 ∧
      (searchOnPage "삼성전자"
        ⟨[some ("005935", "삼성전자우"), some ("005930", "삼성전자")], [], [], [],
          none, false⟩).head? = some r0 ∧
      IsExactFor "삼성전자" r0 :=
  (C7_search "삼성전자"
      ⟨[some ("005935", "삼성전자우"), some ("005930", "삼성전자")], [], [], [],
        none, false⟩).2.2
    ⟨⟨"005930", "삼성전자", "KRX"⟩, by decide, by decide⟩

/-- C7 counterexample: a query matching nothing by name still collects every
distinct stock link of the page's tables through method 2, which has no cap:
this page yields 6 candidates, refuting the at-most-5 bound. -/
theorem C7_counterexample :
    (search_stock_by_name "없는종목" none
        [⟨[], [], [], [("000001", "가"), ("000002", "나"), ("000003", "다"),
            ("000004", "라"), ("000005", "마"), ("000006", "바")], none, false⟩]).count
      = 6 := by
  decide

/-! RSI and technical-indicator calculations (claims C9, C10).  Python float
arithmetic is modelled by exact rationals; a pandas NaN becomes `none`. -/

/-- Price deltas `pd.Series(prices).diff()` without the leading NaN:
entry `i` is `prices[i+1] - prices[i]`. -/
def diffs (prices : List ℚ) : List ℚ :=
  List.zipWith (fun a b => a - b) prices.tail prices

/-- Positive deltas, `deltas.where(deltas > 0, 0)`. -/
def gainsOf (prices : List ℚ) : List ℚ :=
  (diffs prices).map (fun d => if 0 < d then d else 0)

/-- Loss magnitudes, `(-deltas).where(deltas < 0, 0)`. -/
def lossesOf (prices : List ℚ) : List ℚ :=
  (diffs prices).map (fun d => if d < 0 then -d else 0)

def mean (l : List ℚ) : ℚ := l.sum / (l.length : ℚ)

/-- Wilder's smoothing loop (`api/stock/[symbol].py` lines 58-60):
`avg = (avg * (period - 1) + g) / period` over the tail of the series. -/
def wilderSmooth (period : Nat) (init : ℚ) (rest : List ℚ) : ℚ :=
  rest.foldl (fun avg g => (avg * ((period : ℚ) - 1) + g) / (period : ℚ)) init

/-- Python `round(x, 2)`.  Mathlib's `round` rounds half away from the lower
integer while Python rounds half to even; the two agree away from exact
half-cent boundaries, which every concrete input below avoids. -/
def round2 (x : ℚ) : ℚ := ((round (x * 100) : ℤ) : ℚ) / 100

/-- Rolling mean `series.rolling(window=w).mean().iloc[-1]`: NaN (`none`)
when fewer than `w` observations exist, else the mean of the last `w`. -/
def rollingMeanLast (w : Nat) (xs : List ℚ) : Option ℚ :=
  if xs.length < w then none else some (mean (xs.drop (xs.length - w)))

namespace Endpoint

/-- Function `calculate_rsi` of the detail endpoint (`api/stock/[symbol].py`
lines 36-68): Wilder's smoothing — a simple average of the first `period`
gains/losses (lines 51-52), then the smoothing recurrence over the remaining
deltas, 50.0 on short input, 100.0 on zero average loss, rounded to two
decimals. -/
def calculate_rsi (prices : List ℚ) (period : Nat) : ℚ :=
  if prices.length < period + 1 then 50
  else
    let g := gainsOf prices
    let l := lossesOf prices
    let avg_gain := wilderSmooth period (mean (g.take period)) (g.drop period)
    let avg_loss := wilderSmooth period (mean (l.take period)) (l.drop period)
    if avg_loss = 0 then 100
    else round2 (100 - 100 / (1 + avg_gain / avg_loss))

/-- Endpoint indicator record: the moving averages can be NaN (`none`). -/
structure Indicators where
  rsi : ℚ
  ma5 : Option ℚ
  ma20 : Option ℚ
  ma60 : Option ℚ
  ma120 : Option ℚ
deriving DecidableEq, Repr

/-- Function `calculate_indicators` of the detail endpoint
(`api/stock/[symbol].py` lines 70-99): below 5 rows everything falls back to
the latest close (0.0 on an empty frame) with a neutral RSI of 50; otherwise
`ma20` is the raw 20-row rolling mean with no length guard — NaN below 20
rows — while `ma60`/`ma120` reuse the shorter average when their own window
exceeds the history. -/
def calculate_indicators (closes : List ℚ) : Indicators :=
  if closes.length < 5 then
    let latest := closes.getLast?.getD 0
    ⟨50, some latest, some latest, some latest, some latest⟩
  else
    let rsi_value := calculate_rsi closes 14
    let ma5 := rollingMeanLast 5 closes
    let ma20 := rollingMeanLast 20 closes
    let ma60 := if 60 ≤ closes.length then rollingMeanLast 60 closes else ma20
    let ma120 := if 120 ≤ closes.length then rollingMeanLast 120 closes else ma60
    ⟨round2 rsi_value, ma5.map round2, ma20.map round2, ma60.map round2, ma120.map round2⟩

end Endpoint

namespace TestScript

/-- Function `calculate_rsi` of `scripts/test_python_stock.py` (lines 46-57):
a plain rolling average — `gains.rolling(window=period).mean()` — of the last
`period` deltas only, with NaN results (short series, or 0/0) collapsing to
50.0 and division by a zero loss average giving 100.0.  The gain/loss series
keep pandas' leading entry (NaN coerced to 0 by the `where`). -/
def calculate_rsi (prices : List ℚ) (period : Nat) : ℚ :=
  let g := 0 :: gainsOf prices
  let l := 0 :: lossesOf prices
  if g.length < period then 50
  else
    let avg_gain := mean (g.drop (g.length - period))
    let avg_loss := mean (l.drop (l.length - period))
    if avg_loss = 0 then (if avg_gain = 0 then 50 else 100)
    else 100 - 100 / (1 + avg_gain / avg_loss)

/-- Fallback moving average `safe_ma` (lines 78-82): the latest close when
the window exceeds the history, never NaN. -/
def safe_ma (closes : List ℚ) (w : Nat) : ℚ :=
  let latest := closes.getLast?.getD 0
  if closes.length < w then latest
  else
    match rollingMeanLast w closes with
    | some m => m
    | none => latest

/-- Test-script indicator record: every field is a plain number. -/
structure IndicatorsT where
  rsi : ℚ
  ma5 : ℚ
  ma20 : ℚ
  ma60 : ℚ
  ma120 : ℚ
deriving DecidableEq, Repr

/-- Function `calculate_indicators` of `scripts/test_python_stock.py`
(lines 59-95): like the endpoint's below 5 rows; above, every moving average
goes through `safe_ma`. -/
def calculate_indicators (closes : List ℚ) : IndicatorsT :=
  if closes.length < 5 then
    let latest := closes.getLast?.getD 0
    ⟨50, latest, latest, latest, latest⟩
  else
    ⟨round2 (calculate_rsi closes 14), round2 (safe_ma closes 5),
      round2 (safe_ma closes 20), round2 (safe_ma closes 60),
      round2 (safe_ma closes 120)⟩

end TestScript

/-- Concrete price series for claim C9: one large early gain followed by
alternating unit moves, 17 prices (period 14 needs at least 16). -/
def c9Prices : List ℚ :=
  [100, 128, 127, 128, 127, 128, 127, 128, 127, 128, 127, 128, 127, 128, 127, 128, 127]

/-- C9: the two `calculate_rsi` implementations are genuinely different
formulations — the endpoint's Wilder's smoothing still weights the early
+28 jump of this 17-price series, giving RSI 81.13, while the test script's
14-delta rolling average sees only the alternating ±1 moves, giving RSI 50 —
so on a series longer than period+1 they return different values. -/
theorem C9_rsi_formulations_differ :
    14 + 1 < c9Prices.length ∧
    Endpoint.calculate_rsi c9Prices 14 ≠ TestScript.calculate_rsi c9Prices 14 := by
  constructor
  · decide
  · norm_num [Endpoint.calculate_rsi, TestScript.calculate_rsi, c9Prices, gainsOf,
      lossesOf, diffs, mean, wilderSmooth, round2, round_eq]

/-- C10 (amended): for fewer than 5 rows the endpoint returns RSI 50 and all
four moving averages equal to the latest close; for 5 ≤ rows < 60 the
returned `ma60` equals the returned `ma20` and for rows < 120 `ma120` equals
`ma60`; but for 5 ≤ rows < 20 the endpoint's `ma20` (and with it `ma60`,
`ma120`) is NaN — the claimed never-NaN guarantee holds only for the test
script's `safe_ma` variant, which falls back to the latest close. -/
theorem C10_short_history_fallback (closes : List ℚ) :
    (closes.length < 5 →
      Endpoint.calculate_indicators closes
        = ⟨50, some (closes.getLast?.getD 0), some (closes.getLast?.getD 0),
            some (closes.getLast?.getD 0), some (closes.getLast?.getD 0)⟩) ∧
    (5 ≤ closes.length → closes.length < 20 →
      (Endpoint.calculate_indicators closes).ma20 = none) ∧
    (5 ≤ closes.length → closes.length < 60 →
      (Endpoint.calculate_indicators closes).ma60
        = (Endpoint.calculate_indicators closes).ma20) ∧
    (5 ≤ closes.length → closes.length < 120 →
      (Endpoint.calculate_indicators closes).ma120
        = (Endpoint.calculate_indicators closes).ma60) ∧
    (5 ≤ closes.length → closes.length < 20 →
      (TestScript.calculate_indicators closes).ma20
        = round2 (closes.getLast?.getD 0)) := by
  refine ⟨?_, ?_, ?_, ?_, ?_⟩
  · intro h
    rw [Endpoint.calculate_indicators, if_pos h]
  · intro h5 h20
    have hn5 : ¬ closes.length < 5 := by omega
    simp only [Endpoint.calculate_indicators, if_neg hn5]
    simp [rollingMeanLast, h20]
  · intro h5 h60
    have hn5 : ¬ closes.length < 5 := by omega
    have hn60 : ¬ 60 ≤ closes.length := by omega
    simp only [Endpoint.calculate_indicators, if_neg hn5]
    simp [hn60]
  · intro h5 h120
    have hn5 : ¬ closes.length < 5 := by omega
    have hn120 : ¬ 120 ≤ closes.length := by omega
    simp only [Endpoint.calculate_indicators, if_neg hn5]
    simp [hn120]
  · intro h5 h20
    have hn5 : ¬ closes.length < 5 := by omega
    simp only [TestScript.calculate_indicators, if_neg hn5]
    rw [TestScript.safe_ma, if_pos h20]

/-- C10 witness: a 3-row frame yields RSI 50 with every average equal to the
latest close 3, and on a 5-row frame the returned `ma60` equals the returned
`ma20`. -/
theorem C10_short_history_fallback_witness :
    Endpoint.calculate_indicators [1, 2, 3] = ⟨50, some 3, some 3, some 3, some 3⟩ ∧
    (Endpoint.calculate_indicators [1, 2, 3, 4, 5]).ma60
      = (Endpoint.calculate_indicators [1, 2, 3, 4, 5]).ma20 :=
  ⟨(C10_short_history_fallback [1, 2, 3]).1 (by decide),
    (C10_short_history_fallback [1, 2, 3, 4, 5]).2.2.1 (by decide) (by decide)⟩

/-- C10 counterexample: on a 5-row frame the endpoint's returned `ma20`,
`ma60` and `ma120` are all NaN, refuting the claim that the endpoint never
returns a null/NaN moving average for short histories. -/
theorem C10_counterexample :
    (Endpoint.calculate_indicators [1, 2, 3, 4, 5]).ma20 = none ∧
    (Endpoint.calculate_indicators [1, 2, 3, 4, 5]).ma60 = none ∧
    (Endpoint.calculate_indicators [1, 2, 3, 4, 5]).ma120 = none := by
  refine ⟨?_, ?_, ?_⟩ <;> decide

/-! Shape validation of raw records (claim C8). -/

/-- One row of the Naver ETF scraper `get_stock_listing_from_naver`
(`scripts/get_comprehensive_stock_listing.py` lines 122-134): the `(name,
code)` cells are kept when both are non-empty and the code is all digits
(line 129, `if name and code and code.isdigit()`) — there is no length
check in this adapter. -/
def naverEtfStep (acc : List RawStock) (row : String × String) : List RawStock :=
  if row.1 ≠ "" ∧ row.2 ≠ "" ∧ pyIsDigit row.2 then
    acc ++ [⟨row.2, row.1, "ETF"⟩]
  else acc

/-- The scraper's whole row loop (lines 121-134). -/
def naverEtfList (rows : List (String × String)) : List RawStock :=
  rows.foldl naverEtfStep []

theorem addRows_mem (m : String) (rows : List (String × String)) :
    ∀ acc : (List SymbolRecord × List String) × Nat,
    ∀ r ∈ (rows.foldl (addRowStep m) acc).1.1,
      r ∈ acc.1.1 ∨ (pyIsDigit r.code ∧ r.code.length = 6) := by
  induction rows with
  | nil => intro acc r hr; exact Or.inl hr
  | cons row rest ih =>
    intro acc r hr
    rw [List.foldl_cons] at hr
    rcases ih (addRowStep m acc row) r hr with h | h
    · rw [addRowStep] at h
      by_cases hc : row.1 ≠ "" ∧ pyIsDigit row.1 ∧ row.1.length = 6 ∧ row.1 ∉ acc.1.2
      · rw [if_pos hc] at h
        rcases List.mem_append.mp h with h | h
        · exact Or.inl h
        · simp only [List.mem_singleton] at h
          subst h
          exact Or.inr ⟨hc.2.1, hc.2.2.1⟩
      · rw [if_neg hc] at h
        exact Or.inl h
    · exact Or.inr h

theorem naverEtf_mem (rows : List (String × String)) :
    ∀ acc : List RawStock, ∀ r ∈ rows.foldl naverEtfStep acc,
      r ∈ acc ∨ pyIsDigit r.symbol := by
  induction rows with
  | nil => intro acc r hr; exact Or.inl hr
  | cons row rest ih =>
    intro acc r hr
    rw [List.foldl_cons] at hr
    rcases ih (naverEtfStep acc row) r hr with h | h
    · rw [naverEtfStep] at h
      by_cases hc : row.1 ≠ "" ∧ row.2 ≠ "" ∧ pyIsDigit row.2
      · rw [if_pos hc] at h
        rcases List.mem_append.mp h with h | h
        · exact Or.inl h
        · simp only [List.mem_singleton] at h
          subst h
          exact Or.inr hc.2.2
      · rw [if_neg hc] at h
        exact Or.inl h
    · exact Or.inr h

theorem githubTickers_mem (exchange : String) (tickers : List String) :
    ∀ st : List SymbolRecord × List String, ∀ r ∈ (tickers.foldl (githubTickerStep exchange) st).1,
      r ∈ st.1 ∨ ∃ t ∈ tickers, r.code = pyStrip t := by
  induction tickers with
  | nil => intro st r hr; exact Or.inl hr
  | cons t0 rest ih =>
    intro st r hr
    rw [List.foldl_cons] at hr
    rcases ih (githubTickerStep exchange st t0) r hr with h | h
    · rw [githubTickerStep] at h
      by_cases hc : pyStrip t0 ≠ "" ∧ pyStrip t0 ∉ st.2
      · rw [if_pos hc] at h
        rcases List.mem_append.mp h with h | h
        · exact Or.inl h
        · simp only [List.mem_singleton] at h
          subst h
          exact Or.inr ⟨t0, List.mem_cons_self _ _, rfl⟩
      · rw [if_neg hc] at h
        exact Or.inl h
    · rcases h with ⟨t, ht, hcode⟩
      exact Or.inr ⟨t, List.mem_cons_of_mem _ ht, hcode⟩

/-- C8 (amended): the KR market-page adapter only emits records whose code is
exactly 6 digits ("00593" is discarded, "005930" kept), but the cited Naver
ETF adapter of the comprehensive script checks only `code.isdigit()` with no
length check, so it keeps the 5-digit "00593"; and US codes are not
case-normalized in the emitted records — the GitHub ticker source of
`get_us_stocks` stores the stripped raw ticker, so a raw "aapl" yields code
"aapl", not "AAPL" (uppercasing exists only inside
`get_us_stock_listing.py`'s dedup key). -/
theorem C8_shape_validation (m exchange : String)
    (rows etfRows : List (String × String)) (tickers : List String)
    (st : List SymbolRecord × List String) :
    (∀ r ∈ (addRows m rows st).1.1,
      r ∈ st.1 ∨ (pyIsDigit r.code ∧ r.code.length = 6)) ∧
    (∀ r ∈ naverEtfList etfRows, pyIsDigit r.symbol) ∧
    (∀ r ∈ (addGithubTickers exchange tickers st).1,
      r ∈ st.1 ∨ ∃ t ∈ tickers, r.code = pyStrip t) := by
  refine ⟨?_, ?_, ?_⟩
  · exact addRows_mem m rows (st, 0)
  · intro r hr
    rcases naverEtf_mem etfRows [] r hr with h | h
    · simp at h
    · exact h
  · exact githubTickers_mem exchange tickers st

/-- C8 witness: on the claim's example rows, the market-page adapter drops
the 5-digit "00593" and keeps "005930", as the amended claim's membership
property requires. -/
theorem C8_shape_validation_witness :
    (∀ r ∈ (addRows "KOSPI" [("00593", "에이"), ("005930", "삼성전자")] ([], [])).1.1,
      r ∈ ([] : List SymbolRecord) ∨ (pyIsDigit r.code ∧ r.code.length = 6)) ∧
    (addRows "KOSPI" [("00593", "에이"), ("005930", "삼성전자")] ([], [])).1.1
      = [⟨"005930", "삼성전자", "KOSPI", "KR", none⟩] :=
  ⟨(C8_shape_validation "KOSPI" "NASDAQ" [("00593", "에이"), ("005930", "삼성전자")]
      [] [] ([], [])).1, by decide⟩

/-- C8 counterexample: the Naver ETF adapter keeps the 5-digit KR code
"00593" instead of discarding it, and the GitHub US source emits the raw
lowercase code "aapl" instead of the claimed upper-cased "AAPL". -/
theorem C8_counterexample :
    naverEtfList [("펀드", "00593")] = [⟨"00593", "펀드", "ETF"⟩] ∧
    (addGithubTickers "NASDAQ" ["aapl"] ([], [])).1
      = [⟨"aapl", "aapl", "NASDAQ", "US", some "Common Stock"⟩] ∧
    "aapl" ≠ "AAPL" := by
  refine ⟨by decide, by decide, by decide⟩

end StockSite
